import Mathlib

/-
Verification of the turn-resolution core of a team-based Connect Four server:
the board engine (GameEngine), the vote tally / column decision component
(MajorityTurnDecider) and the voting-window turn manager (TurnManager).

The TypeScript source is embedded shallowly:
- the 6x7 board is a list of rows, each a list of cells (`Option Team`,
  `none` = empty), matching the row-major `(Team | null)[][]` layout;
- out-of-range array accesses (`board[row]?.[col]` returning `undefined`)
  are modelled by `Option`-valued lookups returning `none`;
- the vote map (a JS object keyed by player id, insertion ordered, with
  assignment overwriting in place) is modelled as an association list with
  an in-place-overwriting `setVote`;
- `Math.floor(Math.random() * n)`, which yields an arbitrary index below
  `n`, is modelled by threading an arbitrary natural `rand` and using
  `rand % n`, so theorems quantify over every possible random draw;
- functions that throw (`applyMove`) return `Option`; the `try/catch` in
  `finishVoting` becomes a `match` on that option;
- mutation of `gameState` / `players` is modelled by returning the updated
  values alongside the result.
-/

set_option autoImplicit false

namespace ConnectCore

/-- The two teams, `'red' | 'yellow'` in the source. -/
inductive Team where
  | red
  | yellow
deriving DecidableEq, Repr

/-- A board: 6 rows of 7 cells, row 0 on top; a cell is `none` when empty. -/
abbrev Board := List (List (Option Team))

/-- A board coordinate `{ col, row }` as used for win-line reporting. -/
structure CellPos where
  col : Int
  row : Int
deriving DecidableEq, Repr

/-- The `lastMove` record `{ col, row, team }`. -/
structure LastMove where
  col : Int
  row : Int
  team : Team
deriving DecidableEq, Repr

/-- The terminal `result` record `{ winner?, draw?, winningLine? }`. -/
structure GameResult where
  winner : Option Team
  draw : Bool
  winningLine : Option (List CellPos)
deriving DecidableEq, Repr

/-- The `GameState` record of the source (`board`, `currentTeam`, `round`,
`votes`, `perColumnCounts`, `endsAt?`, `lastMove?`, `result?`). -/
structure GameState where
  board : Board
  currentTeam : Team
  round : Nat
  votes : List (String × Int)
  perColumnCounts : List Nat
  endsAt : Option Int
  lastMove : Option LastMove
  result : Option GameResult
deriving DecidableEq, Repr

/-- The `Player` record of the source. -/
structure Player where
  id : String
  nickname : String
  team : Team
  isAdmin : Bool
  matchingVotes : Nat
  connected : Bool
deriving DecidableEq, Repr

/-- `board[row]?.[col]`: `some` of the cell when both indices are in range,
`none` otherwise (the source compares the JS `undefined` against values). -/
def cellAt (b : Board) (row col : Int) : Option (Option Team) :=
  if 0 ≤ row ∧ 0 ≤ col then (b.get? row.toNat).bind (fun r => r.get? col.toNat) else none

/-- `GameEngine.newGame`: empty 6x7 board, red to move, round 1. -/
def newGame : GameState :=
  { board := List.replicate 6 (List.replicate 7 (none : Option Team))
    currentTeam := Team.red
    round := 1
    votes := []
    perColumnCounts := List.replicate 7 0
    endsAt := none
    lastMove := none
    result := none }

/-- `GameEngine.isValidMove`: column in `[0,7)` and the top cell of that
column is exactly `null` (an out-of-range access is `undefined`, not `null`,
hence invalid). -/
def isValidMove (b : Board) (col : Int) : Bool :=
  if col < 0 ∨ 7 ≤ col then false
  else decide (cellAt b 0 col = some none)

/-- The bottom-up scan of `applyMove`: starting from row `r` and walking up
to row 0, the first row whose cell in column `col` is empty. -/
def findTargetRow (b : Board) (col : Int) : Nat → Option Int
  | 0 => if cellAt b 0 col = some none then some 0 else none
  | r + 1 => if cellAt b (r + 1 : Nat) col = some none then some (r + 1 : Nat)
             else findTargetRow b col r

/-- Writing one cell of the (copied) board: `newBoard[targetRow][col] = team`. -/
def setCell (b : Board) (row col : Int) (t : Team) : Board :=
  b.set row.toNat ((b.getD row.toNat []).set col.toNat (some t))

/-- `GameEngine.applyMove`: `none` models the two `throw` sites (invalid
move, no empty row found); on success, the new board and the row used. -/
def applyMove (b : Board) (col : Int) (t : Team) : Option (Board × Int) :=
  if isValidMove b col then
    match findTargetRow b col 5 with
    | some row => some (setCell b row col t, row)
    | none => none
  else none

/-- The loop guard shared by both scan loops of `checkDirection`:
`col >= 0 && col < 7 && row >= 0 && row < 6 && board[row]?.[col] === team`. -/
def inWin (b : Board) (t : Team) (c r : Int) : Bool :=
  decide (0 ≤ c) && decide (c < 7) && decide (0 ≤ r) && decide (r < 6) &&
    decide (cellAt b r c = some (some t))

/-- The first loop of `checkDirection`: step backwards (`col -= deltaCol;
row -= deltaRow`) while the guard holds. The fuel 13 strictly exceeds the
number of distinct in-bounds positions on any scan axis, so it never runs
out before the loop condition fails. -/
def walkBack (b : Board) (t : Team) (dc dr : Int) : Nat → Int → Int → Int × Int
  | 0, c, r => (c, r)
  | fuel + 1, c, r =>
      if inWin b t c r then walkBack b t dc dr fuel (c - dc) (r - dr) else (c, r)

/-- The second loop of `checkDirection`: step forwards collecting positions
while the guard holds. -/
def collectLine (b : Board) (t : Team) (dc dr : Int) : Nat → Int → Int → List CellPos
  | 0, _, _ => []
  | fuel + 1, c, r =>
      if inWin b t c r then ⟨c, r⟩ :: collectLine b t dc dr fuel (c + dc) (r + dr) else []

/-- `GameEngine.checkDirection`: walk backwards to just past the run start,
step forward once, then collect the whole run. -/
def checkDirection (b : Board) (t : Team) (startCol startRow dc dr : Int) : List CellPos :=
  let p := walkBack b t dc dr 13 startCol startRow
  collectLine b t dc dr 13 (p.1 + dc) (p.2 + dr)

/-- The four scan directions of `checkWin`, in source order: horizontal,
vertical, diagonal up-right, diagonal down-right. -/
def directions : List (Int × Int) := [(1, 0), (0, 1), (1, 1), (1, -1)]

/-- The `for` loop of `checkWin` over the four directions: the first
direction whose line reaches length 4 wins; its first 4 cells are the line. -/
def checkWinAux (b : Board) (t : Team) (col row : Int) : List (Int × Int) → Option (Team × List CellPos)
  | [] => none
  | d :: rest =>
      let line := checkDirection b t col row d.1 d.2
      if 4 ≤ line.length then some (t, line.take 4) else checkWinAux b t col row rest

/-- `GameEngine.checkWin`: scan the four axes through the last move; `none`
models the empty result `{}`. -/
def checkWin (b : Board) (lm : LastMove) : Option (Team × List CellPos) :=
  checkWinAux b lm.team lm.col lm.row directions

/-- `GameEngine.isBoardFull`: false if there is no row 0; otherwise true
iff no top cell is exactly `null`. -/
def isBoardFull (b : Board) : Bool :=
  match b.get? 0 with
  | none => false
  | some _ => (List.range 7).all (fun c => !(decide (cellAt b 0 (c : Int) = some none)))

/-- `GameEngine.nextTeam`. -/
def nextTeam : Team → Team
  | Team.red => Team.yellow
  | Team.yellow => Team.red

/-- `MajorityTurnDecider.tallyVotes`: count `Object.values(votes)` into a
7-slot array, ignoring values not in `validCols` or outside `[0,7)`. -/
def tallyVotes (votes : List (String × Int)) (validCols : List Int) : List Nat :=
  votes.foldl
    (fun counts kv =>
      if kv.2 ∈ validCols ∧ 0 ≤ kv.2 ∧ kv.2 < 7 then
        counts.set kv.2.toNat (counts.getD kv.2.toNat 0 + 1)
      else counts)
    (List.replicate 7 0)

/-- `MajorityTurnDecider.pickRandomColumn`: `0` on an empty list, otherwise
the entry at the random index `Math.floor(Math.random() * length)`,
modelled as `rand % length`. -/
def pickRandomColumn (rand : Nat) (columns : List Int) : Int :=
  if columns.isEmpty then 0 else columns.getD (rand % columns.length) 0

/-- One step of the max-finding loop of `decideColumn`: take the count of
column `c` when `c` is valid and its count beats the accumulator. -/
def maxStep (counts : List Nat) (validCols : List Int) (m : Nat) (c : Nat) : Nat :=
  if (c : Int) ∈ validCols ∧ m < counts.getD c 0 then counts.getD c 0 else m

/-- The max-finding loop of `decideColumn`: fold over column indices
`0 .. counts.length`, keeping the largest count among valid columns. -/
def maxVotesOf (counts : List Nat) (validCols : List Int) : Nat :=
  (List.range counts.length).foldl (maxStep counts validCols) 0

/-- The tie-collection loop of `decideColumn`: every valid column index
whose count equals the maximum. -/
def tiedColumnsOf (counts : List Nat) (validCols : List Int) (maxVotes : Nat) : List Int :=
  ((List.range counts.length).filter
    (fun (c : Nat) => decide ((c : Int) ∈ validCols) && decide (counts.getD c 0 = maxVotes))).map
    (fun (n : Nat) => (n : Int))

/-- `MajorityTurnDecider.decideColumn`: random valid column when there are
no votes at all or no votes on valid columns; otherwise a random member of
the set of valid columns tied for the maximum count. -/
def decideColumn (rand : Nat) (counts : List Nat) (validCols : List Int) : Int :=
  let totalVotes := counts.foldl (· + ·) 0
  if totalVotes = 0 then pickRandomColumn rand validCols
  else
    let maxVotes := maxVotesOf counts validCols
    if maxVotes = 0 then pickRandomColumn rand validCols
    else pickRandomColumn rand (tiedColumnsOf counts validCols maxVotes)

/-- The validation failures of `castVote`, in the order the source checks
them; each names one reason string of the source. -/
inductive VoteError where
  | windowClosed
  | playerNotFound
  | wrongTeam
  | invalidColumn
  | columnFull
deriving DecidableEq, Repr

/-- The `VoteResult` record `{ success, error? }`. -/
structure VoteResult where
  success : Bool
  error : Option VoteError
deriving DecidableEq, Repr

/-- The single failure mode of the `catch` branch of `finishVoting` (the
exception message of `applyMove`). -/
inductive TurnError where
  | applyMoveFailed
deriving DecidableEq, Repr

/-- The `TurnResult` record `{ moveApplied, gameEnded, chosenColumn?, error? }`. -/
structure TurnResult where
  moveApplied : Bool
  gameEnded : Bool
  chosenColumn : Option Int
  error : Option TurnError
deriving DecidableEq, Repr

/-- JS object assignment `votes[playerId] = column`: overwrite in place if
the key exists, append otherwise (preserving insertion order). -/
def setVote : List (String × Int) → String → Int → List (String × Int)
  | [], pid, col => [(pid, col)]
  | kv :: rest, pid, col =>
      if kv.1 = pid then (pid, col) :: rest else kv :: setVote rest pid col

/-- Lookup `votes[playerId]`. -/
def getVote : List (String × Int) → String → Option Int
  | [], _ => none
  | kv :: rest, pid => if kv.1 = pid then some kv.2 else getVote rest pid

/-- `TurnManager.startVoting`, state effect only: set the deadline to
`now + timerSec * 1000`. (The timer scheduling and the completion callback
live outside the game state.) -/
def startVoting (gs : GameState) (now timerSec : Int) : GameState :=
  { gs with endsAt := some (now + timerSec * 1000) }

/-- `TurnManager.castVote`: the five validation checks in source order,
then record the vote. Returns the result together with the (possibly
updated) game state; every failing branch leaves the state untouched. -/
def castVote (gs : GameState) (players : List Player) (playerId : String) (column : Int) :
    VoteResult × GameState :=
  match gs.endsAt with
  | none => (⟨false, some VoteError.windowClosed⟩, gs)
  | some _ =>
    match players.find? (fun p => p.id = playerId) with
    | none => (⟨false, some VoteError.playerNotFound⟩, gs)
    | some player =>
      if player.team ≠ gs.currentTeam then (⟨false, some VoteError.wrongTeam⟩, gs)
      else if column < 0 ∨ 7 ≤ column then (⟨false, some VoteError.invalidColumn⟩, gs)
      else if ¬ isValidMove gs.board column then (⟨false, some VoteError.columnFull⟩, gs)
      else (⟨true, none⟩, { gs with votes := setVote gs.votes playerId column })

/-- The playable-columns loop of `finishVoting`: every `col` in `[0,7)`
with `isValidMove`. -/
def validColsOf (b : Board) : List Int :=
  ((List.range 7).map (fun (n : Nat) => (n : Int))).filter (fun c => isValidMove b c)

/-- `TurnManager.finishVoting`: clear the deadline, compute playable
columns (none: draw, early return, votes left as they are), tally, decide
a column, credit matching votes, clear the vote map, apply the move and
check win / draw / continue. Returns the `TurnResult` with the updated
game state and player list. -/
def finishVoting (gs : GameState) (players : List Player) (rand : Nat) :
    TurnResult × GameState × List Player :=
  let gs1 : GameState := { gs with endsAt := none }
  let validColumns := validColsOf gs1.board
  if validColumns.isEmpty then
    (⟨false, true, none, none⟩,
     { gs1 with result := some ⟨none, true, none⟩ }, players)
  else
    let perColumnCounts := tallyVotes gs1.votes validColumns
    let gs2 : GameState := { gs1 with perColumnCounts := perColumnCounts }
    let chosenColumn := decideColumn rand perColumnCounts validColumns
    let players2 := players.map
      (fun p =>
        if p.team = gs2.currentTeam ∧ getVote gs2.votes p.id = some chosenColumn then
          { p with matchingVotes := p.matchingVotes + 1 }
        else p)
    let gs3 : GameState := { gs2 with votes := [] }
    match applyMove gs3.board chosenColumn gs3.currentTeam with
    | none => (⟨false, false, none, some TurnError.applyMoveFailed⟩, gs3, players2)
    | some br =>
      let gs4 : GameState :=
        { gs3 with board := br.1, lastMove := some ⟨chosenColumn, br.2, gs3.currentTeam⟩ }
      match checkWin gs4.board ⟨chosenColumn, br.2, gs4.currentTeam⟩ with
      | some wl =>
        (⟨true, true, some chosenColumn, none⟩,
         { gs4 with result := some ⟨some wl.1, false, some wl.2⟩ }, players2)
      | none =>
        if isBoardFull gs4.board then
          (⟨true, true, some chosenColumn, none⟩,
           { gs4 with result := some ⟨none, true, none⟩ }, players2)
        else
          (⟨true, false, some chosenColumn, none⟩,
           { gs4 with currentTeam := nextTeam gs4.currentTeam, round := gs4.round + 1 }, players2)


/-- Helper for claim statements: the count stored for an integer column. -/
def countAt (counts : List Nat) (c : Int) : Nat :=
  counts.getD c.toNat 0

/-- The scan-loop guard at offset `j` along the axis through `(col, row)`
with direction `(dc, dr)`. -/
def axisP (b : Board) (t : Team) (col row dc dr j : Int) : Bool :=
  inWin b t (col + j * dc) (row + j * dr)

/-- The integer interval `[j, e]` as a list, in increasing order. -/
def intsFromTo (j e : Int) : List Int :=
  (List.range (e + 1 - j).toNat).map (fun (n : Nat) => j + (n : Int))

/-- Spec-side predicate (refinement target), following the words of the
specification and of claim C4: one of the four axes through the cell
`(col, row)` carries four consecutive cells of team `t` whose window
contains `(col, row)` (the window starts `k` steps before the cell, for
some `k` between 0 and 3). -/
def winAxisSpec (b : Board) (col row : Int) (t : Team) : Prop :=
  ∃ d ∈ directions, ∃ k : Fin 4, ∀ j : Fin 4,
    cellAt b (row + ((j : Int) - (k : Int)) * d.2) (col + ((j : Int) - (k : Int)) * d.1) =
      some (some t)

/-- A concrete roster: two red players, one yellow. -/
def playersC : List Player :=
  [⟨"p1", "PlayerOne", Team.red, true, 0, true⟩,
   ⟨"p2", "PlayerTwo", Team.red, false, 0, true⟩,
   ⟨"p3", "PlayerThree", Team.yellow, false, 0, true⟩]

/-- A concrete board whose top row is fully occupied (no playable column). -/
def blockedBoard : Board :=
  List.replicate 7 (some Team.red) ::
    List.replicate 5 (List.replicate 7 (none : Option Team))

/-- A concrete game state with no playable column and one stale vote. -/
def gsBlocked : GameState :=
  { newGame with board := blockedBoard, votes := [("p1", 3)], endsAt := some 99 }

/-- A concrete open-window state: fresh game, window opened at time 0 with a
15 second timer, one vote for column 3 by red player p1. -/
def gsOpenC : GameState :=
  (castVote (startVoting newGame 0 15) playersC "p1" 3).2

/-- The open-window state with both red players voting for column 3
(the worked example of the specification). -/
def gsTwoVotesC : GameState :=
  (castVote gsOpenC playersC "p2" 3).2

/-- A concrete board with a horizontal red run on columns 0..3 of the
bottom row (row 5). -/
def bWinC : Board :=
  [List.replicate 7 (none : Option Team),
   List.replicate 7 (none : Option Team),
   List.replicate 7 (none : Option Team),
   List.replicate 7 (none : Option Team),
   List.replicate 7 (none : Option Team),
   [some Team.red, some Team.red, some Team.red, some Team.red, none, none, none]]

/- ------------------------------------------------------------------ -/
/- Helper lemmas -/
/- ------------------------------------------------------------------ -/

lemma cellAt_nonneg {b : Board} {row col : Int} {x : Option Team}
    (h : cellAt b row col = some x) : 0 ≤ row ∧ 0 ≤ col := by
  simp only [cellAt] at h
  by_cases hrc : 0 ≤ row ∧ 0 ≤ col
  · exact hrc
  · rw [if_neg hrc] at h; cases h

lemma isValidMove_eq_true {b : Board} {col : Int} (h : isValidMove b col = true) :
    0 ≤ col ∧ col < 7 ∧ cellAt b 0 col = some none := by
  simp only [isValidMove] at h
  by_cases hr : col < 0 ∨ 7 ≤ col
  · rw [if_pos hr] at h; cases h
  · rw [if_neg hr] at h
    push_neg at hr
    exact ⟨hr.1, hr.2, of_decide_eq_true h⟩

lemma isValidMove_intro {b : Board} {col : Int} (h0 : 0 ≤ col) (h7 : col < 7)
    (hc : cellAt b 0 col = some none) : isValidMove b col = true := by
  simp only [isValidMove]
  rw [if_neg (by omega)]
  exact decide_eq_true hc

lemma setVote_get_self (votes : List (String × Int)) (pid : String) (col : Int) :
    getVote (setVote votes pid col) pid = some col := by
  induction votes with
  | nil => simp [setVote, getVote]
  | cons kv rest ih =>
    by_cases hk : kv.1 = pid
    · simp [setVote, getVote, hk]
    · simp [setVote, getVote, hk, ih]

lemma setVote_get_other (votes : List (String × Int)) (pid q : String) (col : Int)
    (hq : q ≠ pid) : getVote (setVote votes pid col) q = getVote votes q := by
  have hpq : ¬ pid = q := fun h => hq h.symm
  induction votes with
  | nil =>
    simp only [setVote, getVote]
    rw [if_neg hpq]
  | cons kv rest ih =>
    by_cases hk : kv.1 = pid
    · simp only [setVote, if_pos hk, getVote]
      rw [if_neg hpq, if_neg (by rw [hk]; exact hpq)]
    · simp only [setVote, if_neg hk, getVote]
      by_cases hkq : kv.1 = q
      · rw [if_pos hkq, if_pos hkq]
      · rw [if_neg hkq, if_neg hkq]; exact ih

/- ------------------------------------------------------------------ -/
/- C6 -/
/- ------------------------------------------------------------------ -/

/-- C6: `castVote` fails with `WindowClosed` when no deadline is set,
`PlayerNotFound` when the player id is not in the roster, `WrongTeam` when
the player is not on the active team, `InvalidColumn` when the column is
outside `[0,7)`, and `ColumnFull` when the column is not playable — in that
order of precedence — and every failure leaves the game state untouched;
on success the only effect is recording the vote, overwriting any prior
vote by the same player, and no resolution is triggered. -/
theorem castVote_validation_spec (gs : GameState) (players : List Player)
    (pid : String) (col : Int) :
    (gs.endsAt = none →
      castVote gs players pid col = (⟨false, some VoteError.windowClosed⟩, gs)) ∧
    (∀ e, gs.endsAt = some e → players.find? (fun p => p.id = pid) = none →
      castVote gs players pid col = (⟨false, some VoteError.playerNotFound⟩, gs)) ∧
    (∀ e p, gs.endsAt = some e → players.find? (fun p => p.id = pid) = some p →
      p.team ≠ gs.currentTeam →
      castVote gs players pid col = (⟨false, some VoteError.wrongTeam⟩, gs)) ∧
    (∀ e p, gs.endsAt = some e → players.find? (fun p => p.id = pid) = some p →
      p.team = gs.currentTeam → (col < 0 ∨ 7 ≤ col) →
      castVote gs players pid col = (⟨false, some VoteError.invalidColumn⟩, gs)) ∧
    (∀ e p, gs.endsAt = some e → players.find? (fun p => p.id = pid) = some p →
      p.team = gs.currentTeam → ¬ (col < 0 ∨ 7 ≤ col) → isValidMove gs.board col = false →
      castVote gs players pid col = (⟨false, some VoteError.columnFull⟩, gs)) ∧
    (∀ e p, gs.endsAt = some e → players.find? (fun p => p.id = pid) = some p →
      p.team = gs.currentTeam → isValidMove gs.board col = true →
      castVote gs players pid col =
        (⟨true, none⟩, { gs with votes := setVote gs.votes pid col })) ∧
    (getVote (setVote gs.votes pid col) pid = some col) ∧
    (∀ q, q ≠ pid → getVote (setVote gs.votes pid col) q = getVote gs.votes q) := by
  refine ⟨?_, ?_, ?_, ?_, ?_, ?_, ?_, ?_⟩
  · intro h; simp [castVote, h]
  · intro e he hf; simp [castVote, he, hf]
  · intro e p he hf ht; simp [castVote, he, hf, ht]
  · intro e p he hf ht hc
    have hv : isValidMove gs.board col = false := by
      simp only [isValidMove]; rw [if_pos hc]
    simp [castVote, he, hf, ht, hc, hv]
  · intro e p he hf ht hc hv
    simp [castVote, he, hf, ht, hc, hv]
  · intro e p he hf ht hv
    obtain ⟨h0, h7, -⟩ := isValidMove_eq_true hv
    simp [castVote, he, hf, ht, hv]
    omega
  · exact setVote_get_self gs.votes pid col
  · intro q hq; exact setVote_get_other gs.votes pid q col hq

/-- Witness for C6: the success branch, evaluated at a concrete open-window
state, roster and vote. -/
theorem castVote_validation_spec_witness :
    castVote (startVoting newGame 0 15) playersC "p1" 3 =
      (⟨true, none⟩,
       { startVoting newGame 0 15 with
           votes := setVote (startVoting newGame 0 15).votes "p1" 3 }) :=
  (castVote_validation_spec (startVoting newGame 0 15) playersC "p1" 3).2.2.2.2.2.1
    15000 ⟨"p1", "PlayerOne", Team.red, true, 0, true⟩
    (by decide) (by decide) (by decide) (by decide)

/- ------------------------------------------------------------------ -/
/- C10 -/
/- ------------------------------------------------------------------ -/

/-- C10: `castVote` never consults the clock: when a deadline is present,
an otherwise-valid vote from an active-team player succeeds even when the
current time `now` is already past the deadline — rejection with
`WindowClosed` depends only on the presence of `endsAt`. -/
theorem castVote_ignores_deadline (gs : GameState) (players : List Player)
    (pid : String) (col : Int) (p : Player) (e now : Int)
    (he : gs.endsAt = some e) (hpast : e < now)
    (hp : players.find? (fun q => q.id = pid) = some p)
    (ht : p.team = gs.currentTeam)
    (hv : isValidMove gs.board col = true) :
    (castVote gs players pid col).1.success = true ∧
    (castVote gs players pid col).2 = { gs with votes := setVote gs.votes pid col } := by
  obtain ⟨h0, h7, -⟩ := isValidMove_eq_true hv
  have heq : castVote gs players pid col =
      (⟨true, none⟩, { gs with votes := setVote gs.votes pid col }) := by
    simp [castVote, he, hp, ht, hv]
    omega
  rw [heq]
  exact ⟨rfl, rfl⟩

/-- Witness for C10: a vote cast at time 20000, past the concrete deadline
15000, is still accepted. -/
theorem castVote_ignores_deadline_witness :
    (castVote (startVoting newGame 0 15) playersC "p1" 3).1.success = true ∧
    (castVote (startVoting newGame 0 15) playersC "p1" 3).2 =
      { startVoting newGame 0 15 with
          votes := setVote (startVoting newGame 0 15).votes "p1" 3 } :=
  castVote_ignores_deadline (startVoting newGame 0 15) playersC "p1" 3
    ⟨"p1", "PlayerOne", Team.red, true, 0, true⟩ 15000 20000
    (by decide) (by decide) (by decide) (by decide) (by decide)


/- ------------------------------------------------------------------ -/
/- C7 -/
/- ------------------------------------------------------------------ -/

lemma validColsOf_mem {b : Board} {c : Int} :
    c ∈ validColsOf b ↔ (0 ≤ c ∧ c < 7 ∧ isValidMove b c = true) := by
  constructor
  · intro h
    rw [validColsOf, List.mem_filter] at h
    obtain ⟨hmem, hv⟩ := h
    rw [List.mem_map] at hmem
    obtain ⟨n, hn, rfl⟩ := hmem
    rw [List.mem_range] at hn
    refine ⟨Int.ofNat_nonneg n, ?_, hv⟩
    exact_mod_cast hn
  · rintro ⟨h0, h7, hv⟩
    rw [validColsOf, List.mem_filter]
    refine ⟨?_, hv⟩
    rw [List.mem_map]
    refine ⟨c.toNat, ?_, ?_⟩
    · rw [List.mem_range]; omega
    · omega

lemma validColsOf_eq_nil {b : Board}
    (h : ∀ c : Int, 0 ≤ c → c < 7 → isValidMove b c = false) :
    validColsOf b = [] := by
  rw [List.eq_nil_iff_forall_not_mem]
  intro c hc
  obtain ⟨h0, h7, hv⟩ := validColsOf_mem.mp hc
  rw [h c h0 h7] at hv
  cases hv

/-- C7: whenever `finishVoting` is called with zero playable columns, it
sets a draw result and returns `gameEnded = true`, `moveApplied = false`;
stale votes are not tallied (the vote map, the per-column counts, the
board, the team, the round and the players are all left as they were). -/
theorem finishVoting_blocked_draw (gs : GameState) (players : List Player) (rand : Nat)
    (h : ∀ c : Int, 0 ≤ c → c < 7 → isValidMove gs.board c = false) :
    finishVoting gs players rand =
      (⟨false, true, none, none⟩,
       { gs with endsAt := none, result := some ⟨none, true, none⟩ }, players) := by
  have hnil : validColsOf gs.board = [] := validColsOf_eq_nil h
  simp [finishVoting, hnil]

/-- Witness for C7: a concrete blocked board with a stale vote. -/
theorem finishVoting_blocked_draw_witness :
    finishVoting gsBlocked playersC 0 =
      (⟨false, true, none, none⟩,
       { gsBlocked with endsAt := none, result := some ⟨none, true, none⟩ }, playersC) :=
  finishVoting_blocked_draw gsBlocked playersC 0
    (by intro c h0 h7; interval_cases c <;> decide)

/- ------------------------------------------------------------------ -/
/- C8 -/
/- ------------------------------------------------------------------ -/

/-- Counterexample for C8 as stated: on a state with zero playable columns
and a stale vote, `finishVoting` returns with the vote map still
non-empty (the draw branch returns before the vote-clearing line). -/
theorem finishVoting_keeps_stale_votes_on_blocked_draw :
    (finishVoting gsBlocked playersC 0).2.1.votes = [("p1", 3)] ∧
    (finishVoting gsBlocked playersC 0).2.1.votes ≠ [] := by
  constructor
  · decide
  · decide

/-- C8 (amended): after every `finishVoting` call that finds at least one
playable column, the vote map of the returned game state is empty; only
the zero-playable-columns draw branch returns early with the stale votes
still in place (and there the game has ended). -/
theorem finishVoting_clears_votes_when_playable (gs : GameState) (players : List Player)
    (rand : Nat) (h : ∃ c : Int, 0 ≤ c ∧ c < 7 ∧ isValidMove gs.board c = true) :
    (finishVoting gs players rand).2.1.votes = [] := by
  obtain ⟨c, h0, h7, hc⟩ := h
  have hmem : c ∈ validColsOf gs.board := validColsOf_mem.mpr ⟨h0, h7, hc⟩
  have hne : (validColsOf gs.board).isEmpty = false := by
    cases hvc : validColsOf gs.board with
    | nil => rw [hvc] at hmem; cases hmem
    | cons a l => simp [List.isEmpty]
  simp only [finishVoting, hne, Bool.false_eq_true, if_false]
  split
  · rfl
  · split
    · rfl
    · split
      · rfl
      · rfl

/-- Witness for C8 (amended): a fresh game with a recorded vote; after
`finishVoting` the vote map is empty. -/
theorem finishVoting_clears_votes_when_playable_witness :
    (finishVoting gsOpenC playersC 0).2.1.votes = [] :=
  finishVoting_clears_votes_when_playable gsOpenC playersC 0
    ⟨3, by decide, by decide, by decide⟩

/- ------------------------------------------------------------------ -/
/- C1 -/
/- ------------------------------------------------------------------ -/

/-- C1 demonstration (code bug): `finishVoting` has no at-most-once guard.
After a first call has resolved the window of `gsOpenC` (deadline cleared,
votes cleared, round advanced to 2), a second call on the very same state
is neither a no-op nor an error: it silently applies a further
randomly-chosen move and advances the round again to 3. -/
theorem finishVoting_double_call_silently_moves :
    (finishVoting gsOpenC playersC 0).2.1.endsAt = none ∧
    (finishVoting gsOpenC playersC 0).2.1.votes = [] ∧
    (finishVoting gsOpenC playersC 0).2.1.round = 2 ∧
    (finishVoting ((finishVoting gsOpenC playersC 0).2.1) playersC 0).1.moveApplied = true ∧
    (finishVoting ((finishVoting gsOpenC playersC 0).2.1) playersC 0).1.error = none ∧
    (finishVoting ((finishVoting gsOpenC playersC 0).2.1) playersC 0).2.1.round = 3 := by
  refine ⟨by decide, by decide, by decide, by decide, by decide, by decide⟩


/- ------------------------------------------------------------------ -/
/- C5 -/
/- ------------------------------------------------------------------ -/

lemma cellAt_eq_some_iff {b : Board} {row col : Int} {x : Option Team} :
    cellAt b row col = some x ↔
      0 ≤ row ∧ 0 ≤ col ∧ ∃ rl, b.get? row.toNat = some rl ∧ rl.get? col.toNat = some x := by
  unfold cellAt
  by_cases hrc : 0 ≤ row ∧ 0 ≤ col
  · rw [if_pos hrc, Option.bind_eq_some]
    tauto
  · rw [if_neg hrc]
    constructor
    · intro h; cases h
    · rintro ⟨h0, h1, -⟩; exact absurd ⟨h0, h1⟩ hrc

lemma findTargetRow_spec {b : Board} {col : Int} :
    ∀ (k : Nat) (row : Int), findTargetRow b col k = some row →
      0 ≤ row ∧ row ≤ (k : Int) ∧ cellAt b row col = some none ∧
      ∀ r : Int, row < r → r ≤ (k : Int) → cellAt b r col ≠ some none := by
  intro k
  induction k with
  | zero =>
    intro row h
    simp only [findTargetRow] at h
    by_cases hc : cellAt b 0 col = some none
    · rw [if_pos hc] at h
      obtain rfl : (0 : Int) = row := Option.some.inj h
      exact ⟨le_refl 0, le_refl 0, hc, fun r hr hr2 => absurd (lt_of_lt_of_le hr hr2) (lt_irrefl 0)⟩
    · rw [if_neg hc] at h; cases h
  | succ k ih =>
    intro row h
    simp only [findTargetRow] at h
    by_cases hc : cellAt b ((k + 1 : Nat) : Int) col = some none
    · rw [if_pos hc] at h
      obtain rfl : ((k + 1 : Nat) : Int) = row := Option.some.inj h
      refine ⟨by positivity, le_refl _, hc, fun r hr hr2 => ?_⟩
      omega
    · rw [if_neg hc] at h
      obtain ⟨h0, hk, hcell, hforall⟩ := ih row h
      refine ⟨h0, by push_cast; omega, hcell, fun r hr hr2 => ?_⟩
      by_cases hrk : r ≤ (k : Int)
      · exact hforall r hr hrk
      · have : r = ((k + 1 : Nat) : Int) := by push_cast; push_cast at hrk hr2; omega
        rw [this]
        exact hc

lemma findTargetRow_isSome {b : Board} {col : Int} (h : cellAt b 0 col = some none) :
    ∀ k : Nat, (findTargetRow b col k).isSome = true := by
  intro k
  induction k with
  | zero => simp [findTargetRow, h]
  | succ k ih =>
    simp only [findTargetRow]
    by_cases hc : cellAt b ((k + 1 : Nat) : Int) col = some none
    · rw [if_pos hc]; rfl
    · rw [if_neg hc]; exact ih

lemma cellAt_setCell_self {b : Board} {row col : Int} {y : Option Team} (t : Team)
    (h : cellAt b row col = some y) :
    cellAt (setCell b row col t) row col = some (some t) := by
  obtain ⟨h0, h1, rl, hrl, hcell⟩ := cellAt_eq_some_iff.mp h
  obtain ⟨hlt, -⟩ := List.get?_eq_some.mp hcell
  obtain ⟨hblt, -⟩ := List.get?_eq_some.mp hrl
  apply cellAt_eq_some_iff.mpr
  refine ⟨h0, h1, rl.set col.toNat (some t), ?_, ?_⟩
  · unfold setCell
    rw [List.getD_eq_get?, hrl]
    simp only [Option.getD_some]
    exact List.get?_set_eq_of_lt _ hblt
  · exact List.get?_set_eq_of_lt _ hlt

lemma cellAt_setCell_ne {b : Board} {row col : Int} (t : Team) {r c : Int}
    (h0 : 0 ≤ row) (h1 : 0 ≤ col) (hne : ¬ (r = row ∧ c = col)) :
    cellAt (setCell b row col t) r c = cellAt b r c := by
  unfold cellAt setCell
  by_cases hrc : 0 ≤ r ∧ 0 ≤ c
  · rw [if_pos hrc, if_pos hrc]
    by_cases hr : r.toNat = row.toNat
    · have hrr : r = row := by omega
      have hcc : ¬ c = col := fun hc => hne ⟨hrr, hc⟩
      rw [hr, List.get?_set_eq]
      cases hb : b.get? row.toNat with
      | none => simp
      | some rl =>
        rw [List.getD_eq_get?, hb]
        simp only [Option.getD_some]
        show ((some (rl.set col.toNat (some t))).bind fun q => q.get? c.toNat) = rl.get? c.toNat
        simp only [Option.some_bind]
        rw [List.get?_set_ne _ _ (by omega : col.toNat ≠ c.toNat)]
    · rw [List.get?_set_ne _ _ (by omega : row.toNat ≠ r.toNat)]
  · rw [if_neg hrc, if_neg hrc]

lemma applyMove_isSome {b : Board} {col : Int} (hv : isValidMove b col = true) (t : Team) :
    (applyMove b col t).isSome = true := by
  unfold applyMove
  rw [if_pos hv]
  obtain ⟨-, -, hc⟩ := isValidMove_eq_true hv
  have hs := findTargetRow_isSome hc 5
  cases hf : findTargetRow b col 5 with
  | none => rw [hf] at hs; cases hs
  | some row => simp

lemma applyMove_some_spec (b : Board) (col : Int) (t : Team) (nb : Board) (row : Int)
    (h : applyMove b col t = some (nb, row)) :
    0 ≤ row ∧ row ≤ 5 ∧ cellAt b row col = some none ∧
    (∀ r : Int, row < r → r ≤ 5 → cellAt b r col ≠ some none) ∧
    cellAt nb row col = some (some t) ∧
    (∀ r c : Int, ¬ (r = row ∧ c = col) → cellAt nb r c = cellAt b r c) := by
  unfold applyMove at h
  by_cases hv : isValidMove b col = true
  · rw [if_pos hv] at h
    obtain ⟨hc0, hc7, -⟩ := isValidMove_eq_true hv
    cases hf : findTargetRow b col 5 with
    | none => rw [hf] at h; cases h
    | some row2 =>
      rw [hf] at h
      obtain ⟨hb, hr⟩ := Prod.mk.injEq .. ▸ Option.some.inj h
      subst hr
      subst hb
      obtain ⟨h0, hk, hcell, hforall⟩ := findTargetRow_spec 5 row2 hf
      push_cast at hk
      refine ⟨h0, hk, hcell, ?_, ?_, ?_⟩
      · intro r hr hr5
        exact hforall r hr (by push_cast; omega)
      · exact cellAt_setCell_self t hcell
      · intro r c hne
        exact cellAt_setCell_ne t h0 hc0 hne
  · rw [if_neg hv] at h; cases h

/-- C5: `applyMove` fails exactly when `isValidMove` is false; on success it
returns the lowest empty row of the column (empty there, no empty cell
strictly below it) together with a board equal to the input except that
this single cell now holds the team. The input board is a pure value and
is never mutated; the result is characterised solely in terms of it. -/
theorem applyMove_spec (b : Board) (col : Int) (t : Team)
    (h6 : b.length = 6) (h7 : ∀ r ∈ b, r.length = 7) :
    ((applyMove b col t).isSome = true ↔ isValidMove b col = true) ∧
    (∀ nb row, applyMove b col t = some (nb, row) →
      0 ≤ row ∧ row ≤ 5 ∧ cellAt b row col = some none ∧
      (∀ r : Int, row < r → r ≤ 5 → cellAt b r col ≠ some none) ∧
      cellAt nb row col = some (some t) ∧
      (∀ r c : Int, ¬ (r = row ∧ c = col) → cellAt nb r c = cellAt b r c)) := by
  constructor
  · constructor
    · intro h
      unfold applyMove at h
      by_cases hv : isValidMove b col = true
      · exact hv
      · rw [if_neg hv] at h; cases h
    · intro hv
      exact applyMove_isSome hv t
  · intro nb row h
    exact applyMove_some_spec b col t nb row h

/-- Witness for C5: a concrete move into column 3 of the empty board lands
at row 5 and the characterisation holds there. -/
theorem applyMove_spec_witness :
    ((applyMove newGame.board 3 Team.red).isSome = true ↔
      isValidMove newGame.board 3 = true) ∧
    (∀ nb row, applyMove newGame.board 3 Team.red = some (nb, row) →
      0 ≤ row ∧ row ≤ 5 ∧ cellAt newGame.board row 3 = some none ∧
      (∀ r : Int, row < r → r ≤ 5 → cellAt newGame.board r 3 ≠ some none) ∧
      cellAt nb row 3 = some (some Team.red) ∧
      (∀ r c : Int, ¬ (r = row ∧ c = 3) → cellAt nb r c = cellAt newGame.board r c)) :=
  applyMove_spec newGame.board 3 Team.red (by decide) (by decide)


/- ------------------------------------------------------------------ -/
/- Decision-component lemmas (shared by C3 and C9) -/
/- ------------------------------------------------------------------ -/

lemma isEmpty_false_of_ne_nil {α : Type} {l : List α} (h : l ≠ []) : l.isEmpty = false := by
  cases l with
  | nil => exact absurd rfl h
  | cons a l => rfl

lemma pickRandomColumn_mem (rand : Nat) {cols : List Int} (h : cols ≠ []) :
    pickRandomColumn rand cols ∈ cols := by
  unfold pickRandomColumn
  rw [isEmpty_false_of_ne_nil h]
  simp only [Bool.false_eq_true, if_false]
  have hlen : 0 < cols.length := List.length_pos.mpr h
  have hm : rand % cols.length < cols.length := Nat.mod_lt _ hlen
  rw [List.getD_eq_get?, List.get?_eq_get hm]
  simp only [Option.getD_some]
  exact List.get_mem cols (rand % cols.length) hm

lemma maxStep_le (counts : List Nat) (validCols : List Int) (m c : Nat) :
    m ≤ maxStep counts validCols m c := by
  unfold maxStep
  split
  · omega
  · exact le_refl m

lemma foldl_maxStep_mono (counts : List Nat) (validCols : List Int) :
    ∀ (l : List Nat) (m : Nat), m ≤ l.foldl (maxStep counts validCols) m := by
  intro l
  induction l with
  | nil => intro m; exact le_refl m
  | cons a l ih =>
    intro m
    exact le_trans (maxStep_le counts validCols m a) (ih (maxStep counts validCols m a))

lemma foldl_maxStep_ub (counts : List Nat) (validCols : List Int) :
    ∀ (l : List Nat) (m c : Nat), c ∈ l → (c : Int) ∈ validCols →
      counts.getD c 0 ≤ l.foldl (maxStep counts validCols) m := by
  intro l
  induction l with
  | nil => intro m c hc; cases hc
  | cons a l ih =>
    intro m c hc hv
    rcases List.mem_cons.mp hc with rfl | hc2
    · have hstep : counts.getD c 0 ≤ maxStep counts validCols m c := by
        unfold maxStep
        split
        · exact le_refl _
        · rename_i hcond
          push_neg at hcond
          exact hcond hv
      exact le_trans hstep (foldl_maxStep_mono counts validCols l _)
    · exact ih _ c hc2 hv

lemma foldl_maxStep_attained (counts : List Nat) (validCols : List Int) :
    ∀ (l : List Nat) (m : Nat),
      l.foldl (maxStep counts validCols) m = m ∨
      ∃ c ∈ l, (c : Int) ∈ validCols ∧
        counts.getD c 0 = l.foldl (maxStep counts validCols) m := by
  intro l
  induction l with
  | nil => intro m; exact Or.inl rfl
  | cons a l ih =>
    intro m
    by_cases hcond : (a : Int) ∈ validCols ∧ m < counts.getD a 0
    · have hstep : maxStep counts validCols m a = counts.getD a 0 := by
        unfold maxStep; rw [if_pos hcond]
      rcases ih (maxStep counts validCols m a) with heq | ⟨c, hc, hv, hval⟩
      · refine Or.inr ⟨a, List.mem_cons_self a l, hcond.1, ?_⟩
        simp only [List.foldl_cons]
        rw [heq, hstep]
      · exact Or.inr ⟨c, List.mem_cons_of_mem a hc, hv, hval⟩
    · have hstep : maxStep counts validCols m a = m := by
        unfold maxStep; rw [if_neg hcond]
      simp only [List.foldl_cons, hstep]
      rcases ih m with heq | ⟨c, hc, hv, hval⟩
      · exact Or.inl heq
      · exact Or.inr ⟨c, List.mem_cons_of_mem a hc, hv, hval⟩

lemma maxVotesOf_ub {counts : List Nat} {validCols : List Int} {c : Nat}
    (hc : c < counts.length) (hv : (c : Int) ∈ validCols) :
    counts.getD c 0 ≤ maxVotesOf counts validCols :=
  foldl_maxStep_ub counts validCols _ 0 c (List.mem_range.mpr hc) hv

lemma maxVotesOf_attained {counts : List Nat} {validCols : List Int}
    (h : maxVotesOf counts validCols ≠ 0) :
    ∃ c : Nat, c < counts.length ∧ (c : Int) ∈ validCols ∧
      counts.getD c 0 = maxVotesOf counts validCols := by
  rcases foldl_maxStep_attained counts validCols (List.range counts.length) 0 with heq | hex
  · exact absurd heq h
  · obtain ⟨c, hc, hv, hval⟩ := hex
    exact ⟨c, List.mem_range.mp hc, hv, hval⟩

lemma tiedColumnsOf_mem {counts : List Nat} {validCols : List Int} {maxVotes : Nat} {x : Int} :
    x ∈ tiedColumnsOf counts validCols maxVotes ↔
      ∃ c : Nat, c < counts.length ∧ (c : Int) ∈ validCols ∧
        counts.getD c 0 = maxVotes ∧ x = (c : Int) := by
  unfold tiedColumnsOf
  rw [List.mem_map]
  constructor
  · rintro ⟨c, hc, rfl⟩
    rw [List.mem_filter] at hc
    obtain ⟨hrange, hcond⟩ := hc
    rw [List.mem_range] at hrange
    simp only [Bool.and_eq_true, decide_eq_true_eq] at hcond
    exact ⟨c, hrange, hcond.1, hcond.2, rfl⟩
  · rintro ⟨c, hrange, hv, hval, rfl⟩
    refine ⟨c, ?_, rfl⟩
    rw [List.mem_filter, List.mem_range]
    refine ⟨hrange, ?_⟩
    simp only [Bool.and_eq_true, decide_eq_true_eq]
    exact ⟨hv, hval⟩

lemma decideColumn_mem {rand : Nat} {counts : List Nat} {validCols : List Int}
    (h : validCols ≠ []) : decideColumn rand counts validCols ∈ validCols := by
  unfold decideColumn
  by_cases h1 : counts.foldl (· + ·) 0 = 0
  · rw [if_pos h1]
    exact pickRandomColumn_mem rand h
  · rw [if_neg h1]
    by_cases h2 : maxVotesOf counts validCols = 0
    · rw [if_pos h2]
      exact pickRandomColumn_mem rand h
    · rw [if_neg h2]
      have htie : tiedColumnsOf counts validCols (maxVotesOf counts validCols) ≠ [] := by
        obtain ⟨c, hc, hv, hval⟩ := maxVotesOf_attained h2
        exact List.ne_nil_of_mem (tiedColumnsOf_mem.mpr ⟨c, hc, hv, hval, rfl⟩)
      have hmem := pickRandomColumn_mem rand htie
      obtain ⟨c, -, hv, -, heq⟩ := tiedColumnsOf_mem.mp hmem
      rw [heq]
      exact hv


/- ------------------------------------------------------------------ -/
/- finishVoting branch equations (shared by C2 and C9) -/
/- ------------------------------------------------------------------ -/

lemma finishVoting_eq_win (gs : GameState) (players : List Player) (rand : Nat)
    (counts : List Nat) (chosen : Int) (br : Board × Int) (wl : Team × List CellPos)
    (hne : (validColsOf gs.board).isEmpty = false)
    (hcounts : counts = tallyVotes gs.votes (validColsOf gs.board))
    (hch : chosen = decideColumn rand counts (validColsOf gs.board))
    (hbr : applyMove gs.board chosen gs.currentTeam = some br)
    (hwin : checkWin br.1 ⟨chosen, br.2, gs.currentTeam⟩ = some wl) :
    finishVoting gs players rand =
      (⟨true, true, some chosen, none⟩,
       { gs with board := br.1, votes := [], perColumnCounts := counts, endsAt := none,
                 lastMove := some ⟨chosen, br.2, gs.currentTeam⟩,
                 result := some ⟨some wl.1, false, some wl.2⟩ },
       players.map (fun p =>
         if p.team = gs.currentTeam ∧ getVote gs.votes p.id = some chosen then
           { p with matchingVotes := p.matchingVotes + 1 } else p)) := by
  subst hcounts
  subst hch
  simp only [finishVoting, hne, Bool.false_eq_true, if_false]
  rw [hbr]
  simp only [hwin]

lemma finishVoting_eq_full_draw (gs : GameState) (players : List Player) (rand : Nat)
    (counts : List Nat) (chosen : Int) (br : Board × Int)
    (hne : (validColsOf gs.board).isEmpty = false)
    (hcounts : counts = tallyVotes gs.votes (validColsOf gs.board))
    (hch : chosen = decideColumn rand counts (validColsOf gs.board))
    (hbr : applyMove gs.board chosen gs.currentTeam = some br)
    (hwin : checkWin br.1 ⟨chosen, br.2, gs.currentTeam⟩ = none)
    (hfull : isBoardFull br.1 = true) :
    finishVoting gs players rand =
      (⟨true, true, some chosen, none⟩,
       { gs with board := br.1, votes := [], perColumnCounts := counts, endsAt := none,
                 lastMove := some ⟨chosen, br.2, gs.currentTeam⟩,
                 result := some ⟨none, true, none⟩ },
       players.map (fun p =>
         if p.team = gs.currentTeam ∧ getVote gs.votes p.id = some chosen then
           { p with matchingVotes := p.matchingVotes + 1 } else p)) := by
  subst hcounts
  subst hch
  simp only [finishVoting, hne, Bool.false_eq_true, if_false]
  rw [hbr]
  simp only [hwin, hfull, if_true]

lemma finishVoting_eq_continue (gs : GameState) (players : List Player) (rand : Nat)
    (counts : List Nat) (chosen : Int) (br : Board × Int)
    (hne : (validColsOf gs.board).isEmpty = false)
    (hcounts : counts = tallyVotes gs.votes (validColsOf gs.board))
    (hch : chosen = decideColumn rand counts (validColsOf gs.board))
    (hbr : applyMove gs.board chosen gs.currentTeam = some br)
    (hwin : checkWin br.1 ⟨chosen, br.2, gs.currentTeam⟩ = none)
    (hfull : isBoardFull br.1 = false) :
    finishVoting gs players rand =
      (⟨true, false, some chosen, none⟩,
       { gs with board := br.1, currentTeam := nextTeam gs.currentTeam,
                 round := gs.round + 1, votes := [], perColumnCounts := counts,
                 endsAt := none, lastMove := some ⟨chosen, br.2, gs.currentTeam⟩ },
       players.map (fun p =>
         if p.team = gs.currentTeam ∧ getVote gs.votes p.id = some chosen then
           { p with matchingVotes := p.matchingVotes + 1 } else p)) := by
  subst hcounts
  subst hch
  simp only [finishVoting, hne, Bool.false_eq_true, if_false]
  rw [hbr]
  simp only [hwin, hfull, Bool.false_eq_true, if_false]

/- ------------------------------------------------------------------ -/
/- C9 -/
/- ------------------------------------------------------------------ -/

/-- C9: when `finishVoting` finds at least one playable column, the column
chosen by `decideColumn` is itself playable, so the move application
cannot fail: the catch branch (the only branch with `moveApplied = false`
and an `error`) is unreachable — the result always has `moveApplied = true`
and no error. -/
theorem finishVoting_catch_unreachable (gs : GameState) (players : List Player) (rand : Nat)
    (h : ∃ c : Int, 0 ≤ c ∧ c < 7 ∧ isValidMove gs.board c = true) :
    (finishVoting gs players rand).1.moveApplied = true ∧
    (finishVoting gs players rand).1.error = none := by
  obtain ⟨c, h0, h7, hc⟩ := h
  have hne : validColsOf gs.board ≠ [] :=
    List.ne_nil_of_mem (validColsOf_mem.mpr ⟨h0, h7, hc⟩)
  have hE := isEmpty_false_of_ne_nil hne
  have hmem : decideColumn rand (tallyVotes gs.votes (validColsOf gs.board))
      (validColsOf gs.board) ∈ validColsOf gs.board := decideColumn_mem hne
  obtain ⟨hc0, hc7, hcv⟩ := validColsOf_mem.mp hmem
  have happ := applyMove_isSome hcv gs.currentTeam
  obtain ⟨br, hbr⟩ := Option.isSome_iff_exists.mp happ
  cases hwin : checkWin br.1
      ⟨decideColumn rand (tallyVotes gs.votes (validColsOf gs.board)) (validColsOf gs.board),
       br.2, gs.currentTeam⟩ with
  | some wl =>
    rw [finishVoting_eq_win gs players rand _ _ br wl hE rfl rfl hbr hwin]
    exact ⟨rfl, rfl⟩
  | none =>
    cases hfull : isBoardFull br.1 with
    | true =>
      rw [finishVoting_eq_full_draw gs players rand _ _ br hE rfl rfl hbr hwin hfull]
      exact ⟨rfl, rfl⟩
    | false =>
      rw [finishVoting_eq_continue gs players rand _ _ br hE rfl rfl hbr hwin hfull]
      exact ⟨rfl, rfl⟩

/-- Witness for C9: the concrete open-window state has playable columns and
its resolution applies a move with no error. -/
theorem finishVoting_catch_unreachable_witness :
    (finishVoting gsOpenC playersC 0).1.moveApplied = true ∧
    (finishVoting gsOpenC playersC 0).1.error = none :=
  finishVoting_catch_unreachable gsOpenC playersC 0 ⟨3, by decide, by decide, by decide⟩


/- ------------------------------------------------------------------ -/
/- C2 -/
/- ------------------------------------------------------------------ -/

/-- C2: when the window is open and the resolved move neither wins nor
fills the board, `finishVoting` reports `moveApplied = true`,
`gameEnded = false` with the chosen column, places the active team piece
at the lowest empty row of that column (empty there, no empty cell below
it in the 6-row board), switches the team, increments the round by exactly
one, and leaves the vote map empty and the deadline absent. -/
theorem finishVoting_continue_spec (gs : GameState) (players : List Player) (rand : Nat)
    (chosen : Int) (br : Board × Int)
    (hopen : gs.endsAt.isSome = true)
    (hplayable : ∃ c : Int, 0 ≤ c ∧ c < 7 ∧ isValidMove gs.board c = true)
    (hch : chosen = decideColumn rand (tallyVotes gs.votes (validColsOf gs.board))
      (validColsOf gs.board))
    (hbr : applyMove gs.board chosen gs.currentTeam = some br)
    (hwin : checkWin br.1 ⟨chosen, br.2, gs.currentTeam⟩ = none)
    (hfull : isBoardFull br.1 = false) :
    (finishVoting gs players rand).1 = ⟨true, false, some chosen, none⟩ ∧
    (finishVoting gs players rand).2.1.currentTeam = nextTeam gs.currentTeam ∧
    (finishVoting gs players rand).2.1.round = gs.round + 1 ∧
    (finishVoting gs players rand).2.1.votes = [] ∧
    (finishVoting gs players rand).2.1.endsAt = none ∧
    (finishVoting gs players rand).2.1.board = br.1 ∧
    0 ≤ br.2 ∧ br.2 ≤ 5 ∧
    cellAt gs.board br.2 chosen = some none ∧
    (∀ r : Int, br.2 < r → r ≤ 5 → cellAt gs.board r chosen ≠ some none) ∧
    cellAt br.1 br.2 chosen = some (some gs.currentTeam) := by
  obtain ⟨c, h0, h7, hc⟩ := hplayable
  have hne : validColsOf gs.board ≠ [] :=
    List.ne_nil_of_mem (validColsOf_mem.mpr ⟨h0, h7, hc⟩)
  have hE := isEmpty_false_of_ne_nil hne
  obtain ⟨nb, row⟩ := br
  obtain ⟨hr0, hr5, hempty, hlowest, hplaced, -⟩ :=
    applyMove_some_spec gs.board chosen gs.currentTeam nb row hbr
  rw [finishVoting_eq_continue gs players rand _ chosen (nb, row) hE rfl hch hbr hwin hfull]
  exact ⟨rfl, rfl, rfl, rfl, rfl, rfl, hr0, hr5, hempty, hlowest, hplaced⟩

/-- Witness for C2: the worked example of the specification — votes
`p1 -> 3, p2 -> 3` on the empty board for the red team: the chosen column
is 3, the piece lands at row 5, the team flips, the round becomes 2 and
the window state is cleared. -/
theorem finishVoting_continue_spec_witness :
    (finishVoting gsTwoVotesC playersC 0).1 = ⟨true, false, some 3, none⟩ ∧
    (finishVoting gsTwoVotesC playersC 0).2.1.currentTeam = nextTeam gsTwoVotesC.currentTeam ∧
    (finishVoting gsTwoVotesC playersC 0).2.1.round = gsTwoVotesC.round + 1 ∧
    (finishVoting gsTwoVotesC playersC 0).2.1.votes = [] ∧
    (finishVoting gsTwoVotesC playersC 0).2.1.endsAt = none ∧
    (finishVoting gsTwoVotesC playersC 0).2.1.board = (setCell newGame.board 5 3 Team.red, (5 : Int)).1 ∧
    0 ≤ (setCell newGame.board 5 3 Team.red, (5 : Int)).2 ∧
    (setCell newGame.board 5 3 Team.red, (5 : Int)).2 ≤ 5 ∧
    cellAt gsTwoVotesC.board (setCell newGame.board 5 3 Team.red, (5 : Int)).2 3 = some none ∧
    (∀ r : Int, (setCell newGame.board 5 3 Team.red, (5 : Int)).2 < r → r ≤ 5 →
      cellAt gsTwoVotesC.board r 3 ≠ some none) ∧
    cellAt (setCell newGame.board 5 3 Team.red, (5 : Int)).1
      (setCell newGame.board 5 3 Team.red, (5 : Int)).2 3 = some (some gsTwoVotesC.currentTeam) :=
  finishVoting_continue_spec gsTwoVotesC playersC 0 3 (setCell newGame.board 5 3 Team.red, 5)
    (by decide) ⟨3, by decide, by decide, by decide⟩ (by decide) (by decide) (by decide) (by decide)


/- ------------------------------------------------------------------ -/
/- C3 -/
/- ------------------------------------------------------------------ -/

lemma foldl_add_eq_zero : ∀ (l : List Nat) (acc : Nat), l.foldl (· + ·) acc = 0 →
    acc = 0 ∧ ∀ v ∈ l, v = 0 := by
  intro l
  induction l with
  | nil => intro acc h; exact ⟨h, fun v hv => absurd hv (List.not_mem_nil v)⟩
  | cons a l ih =>
    intro acc h
    simp only [List.foldl_cons] at h
    obtain ⟨hacc, hall⟩ := ih (acc + a) h
    refine ⟨by omega, fun v hv => ?_⟩
    rcases List.mem_cons.mp hv with rfl | hv2
    · omega
    · exact hall v hv2

lemma countAt_eq_zero_of_sum_zero {counts : List Nat}
    (h : counts.foldl (· + ·) 0 = 0) (x : Int) : countAt counts x = 0 := by
  obtain ⟨-, hall⟩ := foldl_add_eq_zero counts 0 h
  unfold countAt
  cases hx : counts.get? x.toNat with
  | none => rw [List.getD_eq_get?, hx]; rfl
  | some v =>
    rw [List.getD_eq_get?, hx]
    exact hall v (List.get?_mem hx)

lemma countAt_cast (counts : List Nat) (c : Nat) : countAt counts (c : Int) = counts.getD c 0 := by
  simp [countAt]

lemma pickRandomColumn_eq_of_all {rand : Nat} {cols : List Int} {c : Int}
    (h : cols ≠ []) (hall : ∀ x ∈ cols, x = c) : pickRandomColumn rand cols = c :=
  hall _ (pickRandomColumn_mem rand h)

/-- C3: `decideColumn` always returns a member of a non-empty
`validColumns`; when the counts total zero or no valid column has a
positive count it still returns some member (via the injected randomness);
when exactly one valid column attains the maximum count among valid
columns it returns exactly that column regardless of the randomness; and
when several valid columns tie for that maximum it returns a member of the
tied set only (a valid column whose count equals the maximum). -/
theorem decideColumn_spec (rand : Nat) (counts : List Nat) (validCols : List Int)
    (h7 : counts.length = 7) (hne : validCols ≠ []) :
    (decideColumn rand counts validCols ∈ validCols) ∧
    ((counts.foldl (· + ·) 0 = 0 ∨ ∀ c ∈ validCols, countAt counts c = 0) →
      decideColumn rand counts validCols ∈ validCols) ∧
    ((∀ c ∈ validCols, 0 ≤ c ∧ c < 7) →
      ∀ c ∈ validCols, (∀ x ∈ validCols, x ≠ c → countAt counts x < countAt counts c) →
      ∀ r : Nat, decideColumn r counts validCols = c) ∧
    ((∀ c ∈ validCols, 0 ≤ c ∧ c < 7) →
      ∀ M : Nat, (∃ c ∈ validCols, countAt counts c = M) →
      (∀ c ∈ validCols, countAt counts c ≤ M) →
      decideColumn rand counts validCols ∈ validCols ∧
      countAt counts (decideColumn rand counts validCols) = M) := by
  have hub : ∀ x ∈ validCols, (∀ c ∈ validCols, 0 ≤ c ∧ c < 7) →
      countAt counts x ≤ maxVotesOf counts validCols := by
    intro x hx hbound
    obtain ⟨hx0, hx7⟩ := hbound x hx
    have hlen : x.toNat < counts.length := by omega
    have hcast : ((x.toNat : Nat) : Int) = x := Int.toNat_of_nonneg hx0
    have := maxVotesOf_ub hlen (by rw [hcast]; exact hx)
    unfold countAt
    exact this
  refine ⟨decideColumn_mem hne, fun _ => decideColumn_mem hne, ?_, ?_⟩
  · intro hbound c hcmem huniq r
    by_cases h1 : counts.foldl (· + ·) 0 = 0
    · have hall : ∀ x ∈ validCols, x = c := by
        intro x hx
        by_contra hxc
        have := huniq x hx hxc
        rw [countAt_eq_zero_of_sum_zero h1 x, countAt_eq_zero_of_sum_zero h1 c] at this
        omega
      unfold decideColumn
      rw [if_pos h1]
      exact pickRandomColumn_eq_of_all hne hall
    · by_cases h2 : maxVotesOf counts validCols = 0
      · have hall : ∀ x ∈ validCols, x = c := by
          intro x hx
          by_contra hxc
          have hlt := huniq x hx hxc
          have hxle := hub x hx hbound
          have hcle := hub c hcmem hbound
          omega
        unfold decideColumn
        rw [if_neg h1, if_pos h2]
        exact pickRandomColumn_eq_of_all hne hall
      · have htie : tiedColumnsOf counts validCols (maxVotesOf counts validCols) ≠ [] := by
          obtain ⟨c0, hc0, hv0, hval0⟩ := maxVotesOf_attained h2
          exact List.ne_nil_of_mem (tiedColumnsOf_mem.mpr ⟨c0, hc0, hv0, hval0, rfl⟩)
        have hall : ∀ x ∈ tiedColumnsOf counts validCols (maxVotesOf counts validCols), x = c := by
          intro x hx
          obtain ⟨cn, hcn, hcnv, hcnval, rfl⟩ := tiedColumnsOf_mem.mp hx
          by_contra hxc
          have hlt := huniq _ hcnv hxc
          rw [countAt_cast, hcnval] at hlt
          have hcle := hub c hcmem hbound
          omega
        unfold decideColumn
        rw [if_neg h1, if_neg h2]
        exact pickRandomColumn_eq_of_all htie hall
  · intro hbound M hM hMub
    obtain ⟨cM, hcMmem, hcMval⟩ := hM
    by_cases h1 : counts.foldl (· + ·) 0 = 0
    · have hM0 : M = 0 := by rw [← hcMval, countAt_eq_zero_of_sum_zero h1]
      unfold decideColumn
      rw [if_pos h1]
      exact ⟨pickRandomColumn_mem rand hne,
        by rw [countAt_eq_zero_of_sum_zero h1, hM0]⟩
    · by_cases h2 : maxVotesOf counts validCols = 0
      · have hM0 : M = 0 := by
          have := hub cM hcMmem hbound
          omega
        unfold decideColumn
        rw [if_neg h1, if_pos h2]
        refine ⟨pickRandomColumn_mem rand hne, ?_⟩
        have hmem := pickRandomColumn_mem rand hne
        have := hub _ hmem hbound
        omega
      · have hmaxM : maxVotesOf counts validCols = M := by
          obtain ⟨c0, hc0, hv0, hval0⟩ := maxVotesOf_attained h2
          have h1le : maxVotesOf counts validCols ≤ M := by
            have := hMub _ hv0
            rw [countAt_cast, hval0] at this
            exact this
          have h2le : M ≤ maxVotesOf counts validCols := by
            rw [← hcMval]
            exact hub cM hcMmem hbound
          omega
        have htie : tiedColumnsOf counts validCols (maxVotesOf counts validCols) ≠ [] := by
          obtain ⟨c0, hc0, hv0, hval0⟩ := maxVotesOf_attained h2
          exact List.ne_nil_of_mem (tiedColumnsOf_mem.mpr ⟨c0, hc0, hv0, hval0, rfl⟩)
        unfold decideColumn
        rw [if_neg h1, if_neg h2]
        have hmem := pickRandomColumn_mem rand htie
        obtain ⟨cn, hcn, hcnv, hcnval, heq⟩ := tiedColumnsOf_mem.mp hmem
        rw [heq]
        refine ⟨hcnv, ?_⟩
        rw [countAt_cast, hcnval, hmaxM]

/-- Witness for C3: with counts `[0,2,0,3,0,3,0]` and valid columns
`[1,3,5]` the decision lands in the tied set `{3,5}` (count 3); with a
single strict maximum at column 3 the decision is 3 for an arbitrary
random draw. -/
theorem decideColumn_spec_witness :
    decideColumn 4 [0, 2, 0, 3, 0, 3, 0] [1, 3, 5] ∈ [(1 : Int), 3, 5] ∧
    countAt [0, 2, 0, 3, 0, 3, 0] (decideColumn 4 [0, 2, 0, 3, 0, 3, 0] [1, 3, 5]) = 3 ∧
    decideColumn 9 [0, 0, 0, 4, 0, 0, 0] [1, 3, 5] = 3 :=
  ⟨(decideColumn_spec 4 [0, 2, 0, 3, 0, 3, 0] [1, 3, 5] (by decide) (by decide)).1,
   ((decideColumn_spec 4 [0, 2, 0, 3, 0, 3, 0] [1, 3, 5] (by decide) (by decide)).2.2.2
     (by decide) 3 ⟨3, by decide, by decide⟩ (by decide)).2,
   (decideColumn_spec 9 [0, 0, 0, 4, 0, 0, 0] [1, 3, 5] (by decide) (by decide)).2.2.1
     (by decide) 3 (by decide) (by decide) 9⟩


/- ------------------------------------------------------------------ -/
/- C4: axis-walk machinery -/
/- ------------------------------------------------------------------ -/

lemma axisP_zero (b : Board) (t : Team) (col row dc dr : Int) :
    axisP b t col row dc dr 0 = inWin b t col row := by
  simp [axisP]

lemma intsFromTo_length (j e : Int) : (intsFromTo j e).length = (e + 1 - j).toNat := by
  unfold intsFromTo
  rw [List.length_map, List.length_range]

lemma intsFromTo_nil {j e : Int} (h : e + 1 ≤ j) : intsFromTo j e = [] := by
  unfold intsFromTo
  have : (e + 1 - j).toNat = 0 := by omega
  rw [this]
  rfl

lemma intsFromTo_cons {j e : Int} (h : j ≤ e) : intsFromTo j e = j :: intsFromTo (j + 1) e := by
  unfold intsFromTo
  have h1 : (e + 1 - j).toNat = (e + 1 - (j + 1)).toNat + 1 := by omega
  rw [h1, List.range_succ_eq_map, List.map_cons, List.map_map]
  have h2 : ((fun (n : Nat) => j + (n : Int)) ∘ Nat.succ) = fun (n : Nat) => (j + 1) + (n : Int) := by
    funext n
    simp only [Function.comp]
    push_cast
    ring
  rw [h2]
  norm_num

lemma walkBack_run (b : Board) (t : Team) (dc dr col row : Int) :
    ∀ (fuel : Nat) (j s : Int), s ≤ j + 1 →
      (∀ i : Int, s ≤ i → i ≤ j → axisP b t col row dc dr i = true) →
      axisP b t col row dc dr (s - 1) = false →
      (j + 1 - s).toNat < fuel →
      walkBack b t dc dr fuel (col + j * dc) (row + j * dr) =
        (col + (s - 1) * dc, row + (s - 1) * dr) := by
  intro fuel
  induction fuel with
  | zero =>
    intro j s hs _ _ hf
    exact absurd hf (by omega)
  | succ fuel ih =>
    intro j s hs hrun hstop hf
    by_cases hsj : s = j + 1
    · have hPj : inWin b t (col + j * dc) (row + j * dr) = false := by
        have : axisP b t col row dc dr (s - 1) = false := hstop
        rw [hsj] at this
        simpa [axisP] using this
      unfold walkBack
      rw [hPj]
      have e1 : s - 1 = j := by omega
      rw [e1]
      simp
    · have hsle : s ≤ j := by omega
      have hPj : inWin b t (col + j * dc) (row + j * dr) = true := by
        have := hrun j hsle (le_refl j)
        simpa [axisP] using this
      unfold walkBack
      rw [hPj]
      simp only [if_true]
      have e1 : col + j * dc - dc = col + (j - 1) * dc := by ring
      have e2 : row + j * dr - dr = row + (j - 1) * dr := by ring
      rw [e1, e2]
      exact ih (j - 1) s (by omega) (fun i hi1 hi2 => hrun i hi1 (by omega)) hstop (by omega)

lemma collectLine_run (b : Board) (t : Team) (dc dr col row : Int) :
    ∀ (fuel : Nat) (j e : Int), j ≤ e + 1 →
      (∀ i : Int, j ≤ i → i ≤ e → axisP b t col row dc dr i = true) →
      axisP b t col row dc dr (e + 1) = false →
      (e + 2 - j).toNat ≤ fuel →
      collectLine b t dc dr fuel (col + j * dc) (row + j * dr) =
        (intsFromTo j e).map (fun i => (⟨col + i * dc, row + i * dr⟩ : CellPos)) := by
  intro fuel
  induction fuel with
  | zero =>
    intro j e hj _ _ hf
    exact absurd hf (by omega)
  | succ fuel ih =>
    intro j e hj hrun hstop hf
    by_cases hje : j = e + 1
    · have hPj : inWin b t (col + j * dc) (row + j * dr) = false := by
        have : axisP b t col row dc dr (e + 1) = false := hstop
        rw [← hje] at this
        simpa [axisP] using this
      unfold collectLine
      rw [hPj]
      rw [intsFromTo_nil (by omega)]
      simp
    · have hje2 : j ≤ e := by omega
      have hPj : inWin b t (col + j * dc) (row + j * dr) = true := by
        have := hrun j (le_refl j) hje2
        simpa [axisP] using this
      unfold collectLine
      rw [hPj]
      simp only [if_true]
      have e1 : col + j * dc + dc = col + (j + 1) * dc := by ring
      have e2 : row + j * dr + dr = row + (j + 1) * dr := by ring
      rw [e1, e2,
        ih (j + 1) e (by omega) (fun i hi1 hi2 => hrun i (by omega) hi2) hstop (by omega),
        intsFromTo_cons hje2]
      rfl


lemma axisP_bounds {b : Board} {t : Team} {col row dc dr j : Int}
    (h : axisP b t col row dc dr j = true) :
    0 ≤ col + j * dc ∧ col + j * dc < 7 ∧ 0 ≤ row + j * dr ∧ row + j * dr < 6 := by
  simp only [axisP, inWin, Bool.and_eq_true, decide_eq_true_eq] at h
  exact ⟨h.1.1.1.1, h.1.1.1.2, h.1.1.2, h.1.2⟩

lemma axis_span {b : Board} {t : Team} {col row dc dr : Int}
    (hd : (dc, dr) ∈ directions) (i j : Int)
    (hi : axisP b t col row dc dr i = true) (hj : axisP b t col row dc dr j = true) :
    j - i ≤ 6 := by
  obtain ⟨hi1, hi2, hi3, hi4⟩ := axisP_bounds hi
  obtain ⟨hj1, hj2, hj3, hj4⟩ := axisP_bounds hj
  simp only [directions, List.mem_cons, List.not_mem_nil, or_false, Prod.mk.injEq] at hd
  rcases hd with ⟨rfl, rfl⟩ | ⟨rfl, rfl⟩ | ⟨rfl, rfl⟩ | ⟨rfl, rfl⟩ <;> omega

lemma axis_run_exists (b : Board) (t : Team) (col row dc dr : Int)
    (hd : (dc, dr) ∈ directions)
    (h0 : axisP b t col row dc dr 0 = true) :
    ∃ s e : Int, s ≤ 0 ∧ 0 ≤ e ∧ e - s ≤ 6 ∧
      (∀ i : Int, s ≤ i → i ≤ e → axisP b t col row dc dr i = true) ∧
      axisP b t col row dc dr (s - 1) = false ∧
      axisP b t col row dc dr (e + 1) = false := by
  have hlow : ∀ j : Int, axisP b t col row dc dr j = true → -6 ≤ j := by
    intro j hj
    have := axis_span hd j 0 hj h0
    omega
  have hhigh : ∀ j : Int, axisP b t col row dc dr j = true → j ≤ 6 := by
    intro j hj
    have := axis_span hd 0 j h0 hj
    omega
  have hdown : ∃ n : Nat, axisP b t col row dc dr (-(n : Int) - 1) = false := by
    refine ⟨6, ?_⟩
    cases hP : axisP b t col row dc dr (-(6 : Nat) - 1) with
    | false => rfl
    | true =>
      have := hlow _ hP
      norm_num at this
  have hup : ∃ n : Nat, axisP b t col row dc dr ((n : Int) + 1) = false := by
    refine ⟨6, ?_⟩
    cases hP : axisP b t col row dc dr ((6 : Nat) + 1) with
    | false => rfl
    | true =>
      have := hhigh _ hP
      norm_num at this
  classical
  let m1 := Nat.find hdown
  let m2 := Nat.find hup
  have hs_stop : axisP b t col row dc dr (-(m1 : Int) - 1) = false := Nat.find_spec hdown
  have he_stop : axisP b t col row dc dr ((m2 : Int) + 1) = false := Nat.find_spec hup
  have hs_run : ∀ k : Nat, k < m1 → axisP b t col row dc dr (-(k : Int) - 1) = true := by
    intro k hk
    have := Nat.find_min hdown hk
    cases hP : axisP b t col row dc dr (-(k : Int) - 1) with
    | false => exact absurd hP this
    | true => rfl
  have he_run : ∀ k : Nat, k < m2 → axisP b t col row dc dr ((k : Int) + 1) = true := by
    intro k hk
    have := Nat.find_min hup hk
    cases hP : axisP b t col row dc dr ((k : Int) + 1) with
    | false => exact absurd hP this
    | true => rfl
  refine ⟨-(m1 : Int), (m2 : Int), by omega, by omega, ?_, ?_, ?_, ?_⟩
  · -- e - s ≤ 6 via span of the run endpoints
    by_cases h1 : m1 = 0
    · by_cases h2 : m2 = 0
      · omega
      · have he := he_run (m2 - 1) (by omega)
        have : ((m2 - 1 : Nat) : Int) + 1 = (m2 : Int) := by omega
        rw [this] at he
        have := axis_span hd 0 _ h0 he
        omega
    · by_cases h2 : m2 = 0
      · have hs := hs_run (m1 - 1) (by omega)
        have : -((m1 - 1 : Nat) : Int) - 1 = -(m1 : Int) := by omega
        rw [this] at hs
        have := axis_span hd _ 0 hs h0
        omega
      · have hs := hs_run (m1 - 1) (by omega)
        have es : -((m1 - 1 : Nat) : Int) - 1 = -(m1 : Int) := by omega
        rw [es] at hs
        have he := he_run (m2 - 1) (by omega)
        have ee : ((m2 - 1 : Nat) : Int) + 1 = (m2 : Int) := by omega
        rw [ee] at he
        have := axis_span hd _ _ hs he
        omega
  · intro i hi1 hi2
    rcases lt_trichotomy i 0 with hi | hi | hi
    · have hk : (-i - 1).toNat < m1 := by omega
      have := hs_run _ hk
      have e1 : -(((-i - 1).toNat : Nat) : Int) - 1 = i := by omega
      rw [e1] at this
      exact this
    · rw [hi]
      exact h0
    · have hk : (i - 1).toNat < m2 := by omega
      have := he_run _ hk
      have e1 : (((i - 1).toNat : Nat) : Int) + 1 = i := by omega
      rw [e1] at this
      exact this
  · exact hs_stop
  · exact he_stop

lemma checkDirection_eq (b : Board) (t : Team) (col row dc dr : Int)
    (hd : (dc, dr) ∈ directions)
    (h0 : axisP b t col row dc dr 0 = true) :
    ∃ s e : Int, s ≤ 0 ∧ 0 ≤ e ∧ e - s ≤ 6 ∧
      (∀ i : Int, s ≤ i → i ≤ e → axisP b t col row dc dr i = true) ∧
      axisP b t col row dc dr (s - 1) = false ∧
      axisP b t col row dc dr (e + 1) = false ∧
      checkDirection b t col row dc dr =
        (intsFromTo s e).map (fun i => (⟨col + i * dc, row + i * dr⟩ : CellPos)) := by
  obtain ⟨s, e, hs0, he0, hspan, hrun, hstop_s, hstop_e⟩ :=
    axis_run_exists b t col row dc dr hd h0
  refine ⟨s, e, hs0, he0, hspan, hrun, hstop_s, hstop_e, ?_⟩
  have hstart : walkBack b t dc dr 13 (col + 0 * dc) (row + 0 * dr) =
      (col + (s - 1) * dc, row + (s - 1) * dr) :=
    walkBack_run b t dc dr col row 13 0 s (by omega)
      (fun i hi1 hi2 => hrun i hi1 (by omega)) hstop_s (by omega)
  have hstart2 : walkBack b t dc dr 13 col row = (col + (s - 1) * dc, row + (s - 1) * dr) := by
    have e1 : col + 0 * dc = col := by ring
    have e2 : row + 0 * dr = row := by ring
    rw [e1, e2] at hstart
    exact hstart
  unfold checkDirection
  rw [hstart2]
  have e1 : col + (s - 1) * dc + dc = col + s * dc := by ring
  have e2 : row + (s - 1) * dr + dr = row + s * dr := by ring
  show collectLine b t dc dr 13 (col + (s - 1) * dc + dc) (row + (s - 1) * dr + dr) = _
  rw [e1, e2]
  exact collectLine_run b t dc dr col row 13 s e (by omega) hrun hstop_e (by omega)


lemma direction_win_iff (b : Board) (t : Team) (col row dc dr : Int)
    (hd : (dc, dr) ∈ directions)
    (h0 : axisP b t col row dc dr 0 = true) :
    4 ≤ (checkDirection b t col row dc dr).length ↔
      ∃ k : Int, -3 ≤ k ∧ k ≤ 0 ∧
        ∀ i : Int, k ≤ i → i ≤ k + 3 → axisP b t col row dc dr i = true := by
  obtain ⟨s, e, hs0, he0, hspan, hrun, hstop_s, hstop_e, heq⟩ :=
    checkDirection_eq b t col row dc dr hd h0
  rw [heq, List.length_map, intsFromTo_length]
  constructor
  · intro hlen
    have hes : 3 ≤ e - s := by omega
    by_cases hs3 : -3 ≤ s
    · exact ⟨s, hs3, hs0, fun i h1 h2 => hrun i h1 (by omega)⟩
    · exact ⟨-3, le_refl _, by omega, fun i h1 h2 => hrun i (by omega) (by omega)⟩
  · rintro ⟨k, hk1, hk2, hw⟩
    have hsk : s ≤ k := by
      by_contra hcon
      push_neg at hcon
      have := hw (s - 1) (by omega) (by omega)
      rw [hstop_s] at this
      cases this
    have hke : k + 3 ≤ e := by
      by_contra hcon
      push_neg at hcon
      have := hw (e + 1) (by omega) (by omega)
      rw [hstop_e] at this
      cases this
    omega

lemma checkDirection_take4 (b : Board) (t : Team) (col row dc dr : Int)
    (hd : (dc, dr) ∈ directions)
    (h0 : axisP b t col row dc dr 0 = true)
    (hlen : 4 ≤ (checkDirection b t col row dc dr).length) :
    ∃ s : Int, s ≤ 0 ∧
      (∀ i : Int, s ≤ i → i ≤ s + 3 → axisP b t col row dc dr i = true) ∧
      axisP b t col row dc dr (s - 1) = false ∧
      (checkDirection b t col row dc dr).take 4 =
        [⟨col + s * dc, row + s * dr⟩, ⟨col + (s + 1) * dc, row + (s + 1) * dr⟩,
         ⟨col + (s + 2) * dc, row + (s + 2) * dr⟩,
         ⟨col + (s + 3) * dc, row + (s + 3) * dr⟩] := by
  obtain ⟨s, e, hs0, he0, hspan, hrun, hstop_s, hstop_e, heq⟩ :=
    checkDirection_eq b t col row dc dr hd h0
  have hes : 3 ≤ e - s := by
    rw [heq, List.length_map, intsFromTo_length] at hlen
    omega
  refine ⟨s, hs0, fun i h1 h2 => hrun i h1 (by omega), hstop_s, ?_⟩
  rw [heq]
  rw [intsFromTo_cons (by omega : s ≤ e), intsFromTo_cons (by omega : s + 1 ≤ e),
      intsFromTo_cons (by omega : s + 1 + 1 ≤ e), intsFromTo_cons (by omega : s + 1 + 1 + 1 ≤ e)]
  have e3 : s + 1 + 1 = s + 2 := by ring
  have e4 : s + 1 + 1 + 1 = s + 3 := by ring
  rw [e3] at e4 ⊢
  rw [e4]
  simp [List.take]


lemma cellAt_iff_inWin {b : Board} (h6 : b.length = 6)
    (h7 : ∀ r ∈ b, r.length = 7) (t : Team) (c r : Int) :
    cellAt b r c = some (some t) ↔ inWin b t c r = true := by
  constructor
  · intro h
    obtain ⟨hr0, hc0, rl, hrl, hcl⟩ := cellAt_eq_some_iff.mp h
    obtain ⟨hrlt, -⟩ := List.get?_eq_some.mp hrl
    obtain ⟨hclt, -⟩ := List.get?_eq_some.mp hcl
    have hmem : rl ∈ b := List.get?_mem hrl
    rw [h6] at hrlt
    rw [h7 rl hmem] at hclt
    have hr6 : r < 6 := by omega
    have hc7 : c < 7 := by omega
    simp [inWin, hr0, hc0, hr6, hc7, h]
  · intro h
    simp only [inWin, Bool.and_eq_true, decide_eq_true_eq] at h
    exact h.2

lemma checkWinAux_spec (b : Board) (t : Team) (col row : Int)
    (h0 : inWin b t col row = true) :
    ∀ ds : List (Int × Int), (∀ d ∈ ds, d ∈ directions) →
      ((checkWinAux b t col row ds).isSome = true ↔
        ∃ d ∈ ds, ∃ k : Int, -3 ≤ k ∧ k ≤ 0 ∧
          ∀ i : Int, k ≤ i → i ≤ k + 3 → axisP b t col row d.1 d.2 i = true) ∧
      (∀ w line, checkWinAux b t col row ds = some (w, line) →
        w = t ∧ ∃ d ∈ ds, ∃ s : Int, s ≤ 0 ∧
          (∀ i : Int, s ≤ i → i ≤ s + 3 → axisP b t col row d.1 d.2 i = true) ∧
          axisP b t col row d.1 d.2 (s - 1) = false ∧
          line = [⟨col + s * d.1, row + s * d.2⟩,
                  ⟨col + (s + 1) * d.1, row + (s + 1) * d.2⟩,
                  ⟨col + (s + 2) * d.1, row + (s + 2) * d.2⟩,
                  ⟨col + (s + 3) * d.1, row + (s + 3) * d.2⟩]) := by
  intro ds
  induction ds with
  | nil =>
    intro _
    constructor
    · simp [checkWinAux]
    · intro w line h
      simp [checkWinAux] at h
  | cons d rest ih =>
    intro hsub
    have hd : d ∈ directions := hsub d (List.mem_cons_self d rest)
    have h0d : axisP b t col row d.1 d.2 0 = true := by rw [axisP_zero]; exact h0
    have ihs := ih (fun x hx => hsub x (List.mem_cons_of_mem d hx))
    by_cases hw4 : 4 ≤ (checkDirection b t col row d.1 d.2).length
    · have haux : checkWinAux b t col row (d :: rest) =
          some (t, (checkDirection b t col row d.1 d.2).take 4) := by
        unfold checkWinAux
        rw [if_pos hw4]
      constructor
      · rw [haux]
        simp only [Option.isSome_some, true_iff]
        obtain ⟨k, hk1, hk2, hkw⟩ := (direction_win_iff b t col row d.1 d.2 hd h0d).mp hw4
        exact ⟨d, List.mem_cons_self d rest, k, hk1, hk2, hkw⟩
      · intro w line heq
        rw [haux] at heq
        have hpair := Option.some.inj heq
        have hww : t = w := congrArg Prod.fst hpair
        have hline : (checkDirection b t col row d.1 d.2).take 4 = line :=
          congrArg Prod.snd hpair
        obtain ⟨s, hs0, hrun4, hstop, htake⟩ :=
          checkDirection_take4 b t col row d.1 d.2 hd h0d hw4
        refine ⟨hww.symm, d, List.mem_cons_self d rest, s, hs0, hrun4, hstop, ?_⟩
        rw [← hline, htake]
    · have haux : checkWinAux b t col row (d :: rest) = checkWinAux b t col row rest := by
        unfold checkWinAux
        rw [if_neg hw4]
        cases rest <;> rfl
      constructor
      · rw [haux, ihs.1]
        constructor
        · rintro ⟨d2, hd2, k, hk1, hk2, hkw⟩
          exact ⟨d2, List.mem_cons_of_mem d hd2, k, hk1, hk2, hkw⟩
        · rintro ⟨d2, hd2, k, hk1, hk2, hkw⟩
          rcases List.mem_cons.mp hd2 with rfl | hmem
          · exfalso
            exact hw4 ((direction_win_iff b t col row d2.1 d2.2 hd h0d).mpr ⟨k, hk1, hk2, hkw⟩)
          · exact ⟨d2, hmem, k, hk1, hk2, hkw⟩
      · intro w line heq
        rw [haux] at heq
        obtain ⟨hww, d2, hd2, srest⟩ := ihs.2 w line heq
        exact ⟨hww, d2, List.mem_cons_of_mem d hd2, srest⟩


lemma winAxisSpec_iff_window {b : Board} (h6 : b.length = 6)
    (h7 : ∀ r ∈ b, r.length = 7) (col row : Int) (t : Team) :
    winAxisSpec b col row t ↔
      ∃ d ∈ directions, ∃ k : Int, -3 ≤ k ∧ k ≤ 0 ∧
        ∀ i : Int, k ≤ i → i ≤ k + 3 → axisP b t col row d.1 d.2 i = true := by
  constructor
  · rintro ⟨d, hd, k, hw⟩
    have hk4 : (k : Nat) < 4 := k.isLt
    refine ⟨d, hd, -(k : Int), by omega, by omega, fun i hi1 hi2 => ?_⟩
    have hj0 : (i + (k : Int)).toNat < 4 := by omega
    have hcell := hw ⟨(i + (k : Int)).toNat, hj0⟩
    simp only [Fin.val_mk] at hcell
    rw [Int.toNat_of_nonneg (by omega : (0 : Int) ≤ i + (k : Int))] at hcell
    have e0 : i + (k : Int) - (k : Int) = i := by ring
    rw [e0] at hcell
    have := (cellAt_iff_inWin h6 h7 t (col + i * d.1) (row + i * d.2)).mp hcell
    simpa [axisP] using this
  · rintro ⟨d, hd, k, hk1, hk2, hw⟩
    refine ⟨d, hd, ⟨(-k).toNat, by omega⟩, fun j => ?_⟩
    have hj4 : (j : Nat) < 4 := j.isLt
    have haxis := hw ((j : Int) + k) (by omega) (by omega)
    have hcell := (cellAt_iff_inWin h6 h7 t (col + ((j : Int) + k) * d.1)
      (row + ((j : Int) + k) * d.2)).mpr (by simpa [axisP] using haxis)
    simp only [Fin.val_mk]
    rw [Int.toNat_of_nonneg (by omega : (0 : Int) ≤ -k)]
    have e0 : (j : Int) - -k = (j : Int) + k := by ring
    rw [e0]
    exact hcell

/-- C4: `checkWin` reports the team of the last move as winner exactly when
one of the four axes through that cell carries four consecutive same-team
cells in a window containing the cell (`winAxisSpec`, a spec-side
restatement); and the reported winning line is exactly the first 4
coordinates, in forward scan order, of the maximal same-team run through
the cell along the winning axis (the cell one step before the reported
line start does not belong to the team). -/
theorem checkWin_spec (b : Board) (col row : Int) (t : Team)
    (h6 : b.length = 6) (h7 : ∀ r ∈ b, r.length = 7)
    (hcol : 0 ≤ col ∧ col < 7) (hrow : 0 ≤ row ∧ row < 6)
    (hcell : cellAt b row col = some (some t)) :
    ((checkWin b ⟨col, row, t⟩).isSome = true ↔ winAxisSpec b col row t) ∧
    (∀ w line, checkWin b ⟨col, row, t⟩ = some (w, line) →
      w = t ∧ ∃ d ∈ directions, ∃ s : Int, s ≤ 0 ∧
        (∀ i : Int, s ≤ i → i ≤ s + 3 →
          cellAt b (row + i * d.2) (col + i * d.1) = some (some t)) ∧
        cellAt b (row + (s - 1) * d.2) (col + (s - 1) * d.1) ≠ some (some t) ∧
        line = [⟨col + s * d.1, row + s * d.2⟩,
                ⟨col + (s + 1) * d.1, row + (s + 1) * d.2⟩,
                ⟨col + (s + 2) * d.1, row + (s + 2) * d.2⟩,
                ⟨col + (s + 3) * d.1, row + (s + 3) * d.2⟩]) := by
  have h0 : inWin b t col row = true := (cellAt_iff_inWin h6 h7 t col row).mp hcell
  have hspec := checkWinAux_spec b t col row h0 directions (fun d hd => hd)
  have hwin_eq : checkWin b ⟨col, row, t⟩ = checkWinAux b t col row directions := rfl
  constructor
  · rw [hwin_eq, hspec.1, winAxisSpec_iff_window h6 h7 col row t]
  · intro w line heq
    rw [hwin_eq] at heq
    obtain ⟨hww, d, hd, s, hs0, hrun, hstop, hline⟩ := hspec.2 w line heq
    refine ⟨hww, d, hd, s, hs0, ?_, ?_, hline⟩
    · intro i h1 h2
      exact (cellAt_iff_inWin h6 h7 t _ _).mpr (by simpa [axisP] using hrun i h1 h2)
    · intro hcl
      have hin := (cellAt_iff_inWin h6 h7 t _ _).mp hcl
      have h2 : axisP b t col row d.1 d.2 (s - 1) = true := by simpa [axisP] using hin
      rw [hstop] at h2
      cases h2

/-- Witness for C4: a horizontal red run on columns 0..3 of row 5, the last
move at column 3: the win is detected, and the line characterisation holds
at this input. -/
theorem checkWin_spec_witness :
    ((checkWin bWinC ⟨3, 5, Team.red⟩).isSome = true ↔ winAxisSpec bWinC 3 5 Team.red) ∧
    (∀ w line, checkWin bWinC ⟨3, 5, Team.red⟩ = some (w, line) →
      w = Team.red ∧ ∃ d ∈ directions, ∃ s : Int, s ≤ 0 ∧
        (∀ i : Int, s ≤ i → i ≤ s + 3 →
          cellAt bWinC (5 + i * d.2) (3 + i * d.1) = some (some Team.red)) ∧
        cellAt bWinC (5 + (s - 1) * d.2) (3 + (s - 1) * d.1) ≠ some (some Team.red) ∧
        line = [⟨3 + s * d.1, 5 + s * d.2⟩,
                ⟨3 + (s + 1) * d.1, 5 + (s + 1) * d.2⟩,
                ⟨3 + (s + 2) * d.1, 5 + (s + 2) * d.2⟩,
                ⟨3 + (s + 3) * d.1, 5 + (s + 3) * d.2⟩]) :=
  checkWin_spec bWinC 3 5 Team.red (by decide) (by decide) (by decide) (by decide) (by decide)

end ConnectCore
